import Mathlib

/-!
Shallow embedding of `djangobulk/bulk.py`: bulk insert, update and
insert-or-update (upsert) operations over a relational store.

Records are modelled as objects carrying an identifier, a flag saying
whether they expose a zero-argument `presave` hook, and an attribute map
from field names to store-ready scalar values (the composition of
`pre_save` and `get_db_prep_save` in the source is opaque to the engine,
so we model the prepared value of a field directly).

Every store interaction performed by the engine is recorded as an event:
a `presave` hook invocation, a `cursor.execute`, a `cursor.executemany`,
or a commit issued by `transaction.commit_unless_managed`.  Each embedded
function returns the list of events it emits, in order, together with an
`Except` for the `assert` failures of the source.
-/

namespace DjangoBulk

/-- A field of a Django model: logical name, physical column, and whether
it is an `AutoField` (excluded from writable-field lists). -/
structure Field where
  name : String
  column : String
  auto : Bool
deriving DecidableEq, Repr

/-- A Django model's metadata: table name, ordered field list, primary
key field name (`model._meta`). -/
structure Model where
  db_table : String
  fields : List Field
  pk : String
deriving DecidableEq, Repr

/-- A record instance: `id` identifies the object (distinct Python
objects), `presave` says whether it exposes a callable `presave` hook,
and `attr` gives the store-prepared value of each field name. -/
structure Obj where
  id : Nat
  presave : Bool
  attr : String → String

/-- One observable interaction of the engine. -/
inductive Event where
  | presaveCall (oid : Nat)
  | execute (sql : String) (params : List String)
  | executeMany (sql : String) (params : List (List String))
  | commit
deriving DecidableEq, Repr

/-- The Data Store handle: identifier quoting (`con.ops.quote_name`),
whether the connection is inside an explicit caller-managed transaction
(so `commit_unless_managed` is a no-op), and the row set that
`cursor.fetchall()` returns for the existence select. -/
structure Connection where
  quote : String → String
  managed : Bool
  fetch : List (List String)

/-- Events emitted by one `_prep_values` call on `obj`: the `presave`
hook is invoked when the object exposes it. -/
def presaveEvents (o : Obj) : List Event :=
  if o.presave then [Event.presaveCall o.id] else []

/-- Embeds `_prep_values(fields, obj, con)`: the tuple of prepared values of
`obj` for `fields`, in field-list order. -/
def prep_values (fields : List Field) (o : Obj) : List String :=
  fields.map (fun f => o.attr f.name)

/-- Embeds `_model_fields(model)`: all fields that are not `AutoField`s. -/
def model_fields (m : Model) : List Field :=
  m.fields.filter (fun f => !f.auto)

/-- Embeds `keys = keys or [model._meta.pk.name]`: an empty key list defaults to
the primary key. -/
def resolved_keys (m : Model) (keys : List String) : List String :=
  if keys.isEmpty then [m.pk] else keys

/-- Embeds `[f for f in model._meta.fields if f.name in keys]`. -/
def key_fields_of (m : Model) (keys : List String) : List Field :=
  m.fields.filter (fun f => decide (f.name ∈ keys))

/-- Embeds `[f for f in _model_fields(model) if f.name not in keys]`. -/
def value_fields_of (m : Model) (keys : List String) : List Field :=
  (model_fields m).filter (fun f => decide (f.name ∉ keys))

/-- Embeds `commit_unless_managed(using)`: a commit round-trip unless the
connection is inside an explicit transaction. -/
def commitEvents (con : Connection) : List Event :=
  if con.managed then [] else [Event.commit]

/-! Python iterables

`_insert_many` guards on the truthiness of its `objects` argument.  A
Python list is falsy iff empty, but a generator object (as produced by
`_filter_objects`) is always truthy.  A generator is modelled by the
events its consumption emits before each yielded object, plus the events
emitted after the last yield. -/

/-- A Python iterable as passed to `_insert_many`: either a list, or a
generator whose consumption yields `steps` (events emitted, then the
object) followed by `trailing` events. -/
inductive PyIter where
  | list (l : List Obj)
  | gen (steps : List (List Event × Obj)) (trailing : List Event)

/-- Python truthiness: `not objects` is true only for an empty list; a
generator object is always truthy. -/
def PyIter.truthy : PyIter → Bool
  | .list l => !l.isEmpty
  | .gen _ _ => true

/-- The objects an iterable yields, in order. -/
def PyIter.toList : PyIter → List Obj
  | .list l => l
  | .gen steps _ => steps.map Prod.snd

/-- Events of fully consuming the iterable while running `f` on each
yielded object (the list comprehension in `_insert_many`). -/
def PyIter.consume (f : Obj → List Event) : PyIter → List Event
  | .list l => l.flatMap f
  | .gen steps trailing => steps.flatMap (fun s => s.1 ++ f s.2) ++ trailing

/-! `_insert_many` -/

/-- The SQL text built by `_insert_many`:
`"INSERT INTO %s (%s) VALUES (%s)" % (table, col_names, placeholders)`
with `col_names` the quoted columns of the non-auto fields and one
placeholder per such field.  The table name is interpolated as-is. -/
def insert_many_sql (con : Connection) (m : Model) : String :=
  let fields := model_fields m
  let col_names := String.intercalate "," (fields.map (fun f => con.quote f.column))
  let placeholders := String.intercalate "," (List.replicate fields.length "%s")
  "INSERT INTO " ++ m.db_table ++ " (" ++ col_names ++ ") VALUES (" ++ placeholders ++ ")"

/-- Embeds `_insert_many(model, objects, using)`: return immediately when
`objects` is falsy, else prepare every yielded object's values and issue
one `executemany`.  Emits no commit (the public wrapper does). -/
def insert_many_core (con : Connection) (m : Model) (objects : PyIter) : List Event :=
  if !objects.truthy then []
  else
    let fields := model_fields m
    let prepTrace := objects.consume presaveEvents
    let parameters := objects.toList.map (prep_values fields)
    prepTrace ++ [Event.executeMany (insert_many_sql con m) parameters]

/-- Embeds `insert_many(model, objects, using)`: `_insert_many` then
`commit_unless_managed`. -/
def insert_many (con : Connection) (m : Model) (objects : List Obj) : List Event :=
  insert_many_core con m (.list objects) ++ commitEvents con

/-! `_update_many` -/

/-- The SQL text built by `_update_many`:
`"UPDATE %s SET %s WHERE %s"` with quoted-column `col=%s` assignments for
the value fields and `AND`-joined quoted-column `col=%s` tests for the
key fields.  The table name is interpolated as-is. -/
def update_sql (con : Connection) (m : Model) (keys : List String) : String :=
  let assignments := String.intercalate ","
    ((value_fields_of m keys).map (fun f => con.quote f.column ++ "=%s"))
  let where_keys := String.intercalate " AND "
    ((key_fields_of m keys).map (fun f => con.quote f.column ++ "=%s"))
  "UPDATE " ++ m.db_table ++ " SET " ++ assignments ++ " WHERE " ++ where_keys

/-- Embeds `_update_many(model, objects, keys, using)`: return immediately on an
empty list; default the key set to the primary key; split fields into
key fields and value fields; `assert key_fields`; prepare each object
over value-then-key fields; issue one `executemany`.  No commit. -/
def update_many_core (con : Connection) (m : Model) (objects : List Obj)
    (keys : List String) : Except String (List Event) :=
  if objects.isEmpty then .ok []
  else if (key_fields_of m (resolved_keys m keys)).isEmpty then
    .error "Empty key fields"
  else
    .ok (objects.flatMap presaveEvents
      ++ [Event.executeMany (update_sql con m (resolved_keys m keys))
            (objects.map (prep_values
              (value_fields_of m (resolved_keys m keys)
                ++ key_fields_of m (resolved_keys m keys))))])

/-- Embeds `update_many(model, objects, keys, using)`: `_update_many` then
`commit_unless_managed`. -/
def update_many (con : Connection) (m : Model) (objects : List Obj)
    (keys : List String) : Except String (List Event) := do
  let t ← update_many_core con m objects keys
  .ok (t ++ commitEvents con)

/-! `_filter_objects` (deduplicator) -/

/-- The recursion of `_filter_objects` over the (already reversed) input:
per scanned object, the `presave` events of preparing its key tuple are
emitted; an object whose key tuple was already seen is skipped, otherwise
its key is added to `keyset` and the object is yielded.  `pending` holds
events emitted since the last yield.  Returns the generator's steps and
trailing events. -/
def filter_objects_go (key_fields : List Field) :
    List Obj → List (List String) → List Event → List (List Event × Obj) × List Event
  | [], _seen, pending => ([], pending)
  | o :: rest, seen, pending =>
    let pending2 := pending ++ presaveEvents o
    let okeys := prep_values key_fields o
    if okeys ∈ seen then filter_objects_go key_fields rest seen pending2
    else
      let r := filter_objects_go key_fields rest (okeys :: seen) []
      ((pending2, o) :: r.1, r.2)

/-- Embeds `_filter_objects(con, objects, key_fields)`: a generator scanning
`reversed(objects)` and yielding each object whose prepared key tuple has
not been seen yet (latest record wins). -/
def filter_objects (key_fields : List Field) (objects : List Obj) : PyIter :=
  let r := filter_objects_go key_fields objects.reverse [] []
  .gen r.1 r.2

/-- The pure yield sequence of `_filter_objects` run on `l` with the keys
in `seen` already in the keyset. -/
def filter_objects_list (key_fields : List Field) :
    List Obj → List (List String) → List Obj
  | [], _seen => []
  | o :: rest, seen =>
    let okeys := prep_values key_fields o
    if okeys ∈ seen then filter_objects_list key_fields rest seen
    else o :: filter_objects_list key_fields rest (okeys :: seen)

/-- The record list the upsert's insert phase receives: the dedup
generator's yields, i.e. the reverse scan with an empty initial keyset. -/
def dedup_run (key_fields : List Field) (objects : List Obj) : List Obj :=
  filter_objects_list key_fields objects.reverse []

/-! `insert_or_update_many` -/

/-- Embeds `object_keys = [(o, _prep_values(key_fields, o, con)) for o in objects]`. -/
def object_keys_of (key_fields : List Field) (objects : List Obj) :
    List (Obj × List String) :=
  objects.map (fun o => (o, prep_values key_fields o))

/-- Embeds `update_objects = [o for (o, k) in object_keys if k in existing]`. -/
def update_objects_of (key_fields : List Field) (objects : List Obj)
    (existing : List (List String)) : List Obj :=
  ((object_keys_of key_fields objects).filter
    (fun ok => decide (ok.2 ∈ existing))).map Prod.fst

/-- Embeds `insert_objects = [o for (o, k) in object_keys if k not in existing]`. -/
def insert_objects_of (key_fields : List Field) (objects : List Obj)
    (existing : List (List String)) : List Obj :=
  ((object_keys_of key_fields objects).filter
    (fun ok => decide (ok.2 ∉ existing))).map Prod.fst

/-- The existence-select text built by `insert_or_update_many`:
`"SELECT %s FROM %s WHERE (%s) IN (%s)"` with quoted key columns, the
raw table name, and one parenthesised placeholder tuple per record. -/
def existence_sql (con : Connection) (m : Model) (key_fields : List Field)
    (n : Nat) : String :=
  let col_names := String.intercalate "," (key_fields.map (fun f => con.quote f.column))
  let tuple_placeholder :=
    "(" ++ String.intercalate "," (List.replicate key_fields.length "%s") ++ ")"
  let placeholders := String.intercalate "," (List.replicate n tuple_placeholder)
  "SELECT " ++ col_names ++ " FROM " ++ m.db_table ++
    " WHERE (" ++ col_names ++ ") IN (" ++ placeholders ++ ")"

/-- Embeds `insert_or_update_many(model, objects, keys, using, skip_update)`:
return on an empty batch; resolve the key set; `assert key_fields`;
prepare every object's key tuple and select the existing key tuples;
unless `skip_update`, run `_update_many` over the objects whose key tuple
was fetched; filter duplicates out of the remaining objects and run
`_insert_many` over the generator; finally `commit_unless_managed`. -/
def insert_or_update_many (con : Connection) (m : Model) (objects : List Obj)
    (keys : List String) (skip_update : Bool) : Except String (List Event) :=
  if objects.isEmpty then .ok []
  else if (key_fields_of m (resolved_keys m keys)).isEmpty then
    .error "Empty key fields"
  else
    match (if skip_update then Except.ok []
           else update_many_core con m
             (update_objects_of (key_fields_of m (resolved_keys m keys)) objects con.fetch)
             (resolved_keys m keys)) with
    | .error e => .error e
    | .ok updTrace =>
      .ok (objects.flatMap presaveEvents
        ++ [Event.execute
              (existence_sql con m (key_fields_of m (resolved_keys m keys)) objects.length)
              ((object_keys_of (key_fields_of m (resolved_keys m keys)) objects).flatMap
                (fun ok => ok.2))]
        ++ updTrace
        ++ insert_many_core con m
            (filter_objects (key_fields_of m (resolved_keys m keys))
              (insert_objects_of (key_fields_of m (resolved_keys m keys)) objects con.fetch))
        ++ commitEvents con)

/-! Trace observations -/

/-- The events of a run that did not raise. -/
def traceOf (e : Except String (List Event)) : List Event :=
  match e with
  | .ok t => t
  | .error _ => []

/-- Is this event a `presave` invocation on the object with id `oid`? -/
def isPresaveOf (oid : Nat) : Event → Bool
  | .presaveCall j => j == oid
  | _ => false

/-- Is this event a commit? -/
def isCommitEv : Event → Bool
  | .commit => true
  | _ => false

/-- Is this event a statement execution (`execute` or `executemany`)? -/
def isStatementEv : Event → Bool
  | .execute _ _ => true
  | .executeMany _ _ => true
  | _ => false

/-- Is this event a store round-trip (statement or commit)? -/
def isRoundTrip : Event → Bool
  | .presaveCall _ => false
  | _ => true

/-- Number of `presave` hook invocations on the object with id `oid`. -/
def presaveCount (t : List Event) (oid : Nat) : Nat :=
  t.countP (isPresaveOf oid)

/-- Number of commits in a trace. -/
def commitCount (t : List Event) : Nat :=
  t.countP isCommitEv

/-- Number of statement executions (`execute` or `executemany`). -/
def statementCount (t : List Event) : Nat :=
  t.countP isStatementEv

/-- Number of store round-trips: statements and commits. -/
def roundTrips (t : List Event) : Nat :=
  t.countP isRoundTrip

/-- The parameter tuples executed against a given statement text,
concatenated across its `executemany` occurrences. -/
def executedRows (t : List Event) (sql : String) : List (List String) :=
  (t.filterMap (fun e => match e with
    | .executeMany s ps => if s = sql then some ps else none
    | _ => none)).flatten

/-! Spec-side statement characterizations

These definitions follow the spec's words (§4.2) and are compared with
the builders embedded from the source. -/

/-- The SET-clause fields required by the spec: all non-auto-generated
fields not in the key set, in schema declaration order. -/
def update_set_fields (m : Model) (keys : List String) : List Field :=
  m.fields.filter (fun f => !f.auto && decide (f.name ∉ keys))

/-- The WHERE-clause fields required by the spec: the key-set fields in
schema declaration order. -/
def update_where_fields (m : Model) (keys : List String) : List Field :=
  m.fields.filter (fun f => decide (f.name ∈ keys))

/-- The update statement as the spec describes it: SET over the spec's
SET-clause fields, WHERE over the spec's WHERE-clause fields. -/
def update_sql_spec (con : Connection) (m : Model) (keys : List String) : String :=
  "UPDATE " ++ m.db_table ++ " SET "
    ++ String.intercalate ","
        ((update_set_fields m keys).map (fun f => con.quote f.column ++ "=%s"))
    ++ " WHERE "
    ++ String.intercalate " AND "
        ((update_where_fields m keys).map (fun f => con.quote f.column ++ "=%s"))

/-- Modelled from the spec (§4.2): the insert statement with *every*
identifier — the table name included — quoted by the store's
identifier-quoting convention. -/
def insert_sql_allQuoted (con : Connection) (m : Model) : String :=
  "INSERT INTO " ++ con.quote m.db_table ++ " ("
    ++ String.intercalate "," ((model_fields m).map (fun f => con.quote f.column))
    ++ ") VALUES ("
    ++ String.intercalate "," (List.replicate (model_fields m).length "%s") ++ ")"

/-- Modelled from the spec (§4.2): the update statement with every
identifier, the table name included, quoted. -/
def update_sql_allQuoted (con : Connection) (m : Model) (keys : List String) : String :=
  "UPDATE " ++ con.quote m.db_table ++ " SET "
    ++ String.intercalate ","
        ((value_fields_of m keys).map (fun f => con.quote f.column ++ "=%s"))
    ++ " WHERE "
    ++ String.intercalate " AND "
        ((key_fields_of m keys).map (fun f => con.quote f.column ++ "=%s"))

/-- Modelled from the spec (§4.2): the existence select with every
identifier, the table name included, quoted. -/
def existence_sql_allQuoted (con : Connection) (m : Model)
    (key_fields : List Field) (n : Nat) : String :=
  "SELECT "
    ++ String.intercalate "," (key_fields.map (fun f => con.quote f.column))
    ++ " FROM " ++ con.quote m.db_table ++ " WHERE ("
    ++ String.intercalate "," (key_fields.map (fun f => con.quote f.column))
    ++ ") IN ("
    ++ String.intercalate "," (List.replicate n
        ("(" ++ String.intercalate "," (List.replicate key_fields.length "%s") ++ ")"))
    ++ ")"

/-! Concrete instances

The `Person{id(auto), email(key), name}` schema of the spec's worked
example, and connections used to instantiate the theorems. -/

/-- The auto-generated primary key field of `Person`. -/
def personIdF : Field := ⟨"id", "id", true⟩

/-- The `email` field of `Person`. -/
def personEmailF : Field := ⟨"email", "email", false⟩

/-- The `name` field of `Person`. -/
def personNameF : Field := ⟨"name", "name", false⟩

/-- The `Person` model of the spec's worked example. -/
def person : Model := ⟨"person", [personIdF, personEmailF, personNameF], "id"⟩

/-- Record `{email: "a@x", name: "Ann"}`, no `presave` hook. -/
def pAnn : Obj :=
  ⟨0, false, fun s => if s = "email" then "a@x" else if s = "name" then "Ann" else ""⟩

/-- Record `{email: "a@x", name: "Ann2"}`, no `presave` hook. -/
def pAnn2 : Obj :=
  ⟨1, false, fun s => if s = "email" then "a@x" else if s = "name" then "Ann2" else ""⟩

/-- Record `{email: "a@x", name: "Ann"}` with a `presave` hook, id 5. -/
def qAnn : Obj :=
  ⟨5, true, fun s => if s = "email" then "a@x" else if s = "name" then "Ann" else ""⟩

/-- A connection quoting identifiers with double quotes, outside any
explicit transaction, over an empty table. -/
def conQ : Connection := ⟨fun s => "\"" ++ s ++ "\"", false, []⟩

/-- The same connection over a table already holding key tuple
`("a@x")`. -/
def conHit : Connection := ⟨fun s => "\"" ++ s ++ "\"", false, [["a@x"]]⟩

/-- A connection whose identifier quoting is the identity. -/
def conId : Connection := ⟨fun s => s, false, []⟩

/-- A model whose table name is the SQL reserved word `order`. -/
def orderModel : Model := ⟨"order", [⟨"name", "name", false⟩], "name"⟩

/-! Helper lemmas about the deduplicating generator -/

/-- The events of one full consumption of the dedup generator built from
scanning `l` with keyset `seen`, running `f` on each yielded object. -/
def scanTrace (f : Obj → List Event) (key_fields : List Field) :
    List Obj → List (List String) → List Event
  | [], _seen => []
  | o :: rest, seen =>
    presaveEvents o ++
      (if prep_values key_fields o ∈ seen then scanTrace f key_fields rest seen
       else f o ++ scanTrace f key_fields rest (prep_values key_fields o :: seen))

theorem filter_objects_go_snd (key_fields : List Field) :
    ∀ (l : List Obj) (seen : List (List String)) (pending : List Event),
      (filter_objects_go key_fields l seen pending).1.map Prod.snd
        = filter_objects_list key_fields l seen
  | [], _seen, _pending => rfl
  | o :: rest, seen, pending => by
    simp only [filter_objects_go, filter_objects_list]
    split
    · exact filter_objects_go_snd key_fields rest seen _
    · simpa using filter_objects_go_snd key_fields rest _ []

theorem consume_filter_objects_go (f : Obj → List Event) (key_fields : List Field) :
    ∀ (l : List Obj) (seen : List (List String)) (pending : List Event),
      PyIter.consume f
          (.gen (filter_objects_go key_fields l seen pending).1
                (filter_objects_go key_fields l seen pending).2)
        = pending ++ scanTrace f key_fields l seen
  | [], _seen, pending => by
    simp [filter_objects_go, scanTrace, PyIter.consume]
  | o :: rest, seen, pending => by
    simp only [filter_objects_go, scanTrace]
    split
    · rw [consume_filter_objects_go f key_fields rest seen _]
      simp
    · have ih := consume_filter_objects_go f key_fields rest
        (prep_values key_fields o :: seen) []
      simp only [PyIter.consume, List.flatMap_cons] at ih ⊢
      simp [ih]

/-- The insert phase of the upsert: `_insert_many` applied to the
`_filter_objects` generator always executes one insert statement, whose
parameter rows are the prepared values of the deduplicated record list. -/
theorem insert_phase_trace (con : Connection) (m : Model)
    (key_fields : List Field) (l : List Obj) :
    insert_many_core con m (filter_objects key_fields l)
      = scanTrace presaveEvents key_fields l.reverse []
          ++ [Event.executeMany (insert_many_sql con m)
                ((dedup_run key_fields l).map (prep_values (model_fields m)))] := by
  unfold insert_many_core filter_objects
  simp [PyIter.truthy, PyIter.toList, filter_objects_go_snd,
    consume_filter_objects_go, dedup_run]

/-! Helper lemmas about the dedup yield list -/

theorem filter_objects_list_not_mem_seen (key_fields : List Field) :
    ∀ (l : List Obj) (seen : List (List String)) (o : Obj),
      o ∈ filter_objects_list key_fields l seen →
        prep_values key_fields o ∉ seen
  | [], _seen, _o, h => by simp [filter_objects_list] at h
  | a :: rest, seen, o, h => by
    simp only [filter_objects_list] at h
    split at h
    · exact filter_objects_list_not_mem_seen key_fields rest seen o h
    · rcases List.mem_cons.1 h with rfl | h2
      · assumption
      · have := filter_objects_list_not_mem_seen key_fields rest _ o h2
        intro hmem
        exact this (List.mem_cons_of_mem _ hmem)

theorem filter_objects_list_keys_nodup (key_fields : List Field) :
    ∀ (l : List Obj) (seen : List (List String)),
      ((filter_objects_list key_fields l seen).map (prep_values key_fields)).Nodup
  | [], _seen => by simp [filter_objects_list]
  | a :: rest, seen => by
    simp only [filter_objects_list]
    split
    · exact filter_objects_list_keys_nodup key_fields rest seen
    · simp only [List.map_cons, List.nodup_cons]
      refine ⟨?_, filter_objects_list_keys_nodup key_fields rest _⟩
      intro hmem
      rcases List.mem_map.1 hmem with ⟨o, ho, hk⟩
      have := filter_objects_list_not_mem_seen key_fields rest _ o ho
      exact this (hk ▸ List.mem_cons_self _ _)

theorem filter_objects_list_mem_keys (key_fields : List Field) :
    ∀ (l : List Obj) (seen : List (List String)) (k : List String),
      (k ∈ (filter_objects_list key_fields l seen).map (prep_values key_fields)) ↔
        (k ∈ l.map (prep_values key_fields) ∧ k ∉ seen)
  | [], _seen, k => by simp [filter_objects_list]
  | a :: rest, seen, k => by
    simp only [filter_objects_list]
    split
    · rw [filter_objects_list_mem_keys key_fields rest seen k]
      simp only [List.map_cons, List.mem_cons]
      constructor
      · rintro ⟨h1, h2⟩; exact ⟨Or.inr h1, h2⟩
      · rintro ⟨h1 | h1, h2⟩
        · exact absurd (h1 ▸ ‹prep_values key_fields a ∈ seen›) h2
        · exact ⟨h1, h2⟩
    · simp only [List.map_cons, List.mem_cons]
      rw [filter_objects_list_mem_keys key_fields rest _ k]
      simp only [List.mem_cons]
      constructor
      · rintro (rfl | ⟨h1, h2⟩)
        · exact ⟨Or.inl rfl, ‹prep_values key_fields a ∉ seen›⟩
        · exact ⟨Or.inr h1, fun hs => h2 (Or.inr hs)⟩
      · rintro ⟨rfl | h1, h2⟩
        · exact Or.inl rfl
        · by_cases hk : k = prep_values key_fields a
          · exact Or.inl hk
          · exact Or.inr ⟨h1, fun hs => hs.elim (fun h => hk h) h2⟩

theorem filter_objects_list_find (key_fields : List Field) :
    ∀ (l : List Obj) (seen : List (List String)) (o : Obj),
      o ∈ filter_objects_list key_fields l seen →
        l.find? (fun x =>
          decide (prep_values key_fields x = prep_values key_fields o)) = some o
  | [], _seen, _o, h => by simp [filter_objects_list] at h
  | a :: rest, seen, o, h => by
    simp only [filter_objects_list] at h
    split at h
    · have hne : prep_values key_fields a ≠ prep_values key_fields o := by
        intro he
        exact filter_objects_list_not_mem_seen key_fields rest seen o h
          (he ▸ ‹prep_values key_fields a ∈ seen›)
      rw [List.find?_cons_of_neg _ (by simpa using hne)]
      exact filter_objects_list_find key_fields rest seen o h
    · rcases List.mem_cons.1 h with rfl | h2
      · exact List.find?_cons_of_pos _ (by simp)
      · have hno := filter_objects_list_not_mem_seen key_fields rest _ o h2
        have hne : prep_values key_fields a ≠ prep_values key_fields o := by
          intro he
          exact hno (he ▸ List.mem_cons_self _ _)
        rw [List.find?_cons_of_neg _ (by simpa using hne)]
        exact filter_objects_list_find key_fields rest _ o h2

theorem filter_objects_list_sublist (key_fields : List Field) :
    ∀ (l : List Obj) (seen : List (List String)),
      (filter_objects_list key_fields l seen).Sublist l
  | [], _seen => List.Sublist.refl _
  | a :: rest, seen => by
    simp only [filter_objects_list]
    split
    · exact (filter_objects_list_sublist key_fields rest seen).cons a
    · exact (filter_objects_list_sublist key_fields rest _).cons₂ a

/-! Helper lemmas about the upsert partition -/

theorem update_objects_eq_filter (key_fields : List Field) (objects : List Obj)
    (existing : List (List String)) :
    update_objects_of key_fields objects existing
      = objects.filter (fun o => decide (prep_values key_fields o ∈ existing)) := by
  unfold update_objects_of object_keys_of
  induction objects with
  | nil => rfl
  | cons a l ih =>
    simp only [List.map_cons, List.filter_cons]
    split
    · simpa using ih
    · simpa using ih

theorem insert_objects_eq_filter (key_fields : List Field) (objects : List Obj)
    (existing : List (List String)) :
    insert_objects_of key_fields objects existing
      = objects.filter (fun o => decide (prep_values key_fields o ∉ existing)) := by
  unfold insert_objects_of object_keys_of
  induction objects with
  | nil => rfl
  | cons a l ih =>
    simp only [List.map_cons, List.filter_cons]
    split
    · simpa using ih
    · simpa using ih

/-! Counting `presave` invocations -/

theorem countP_presaveEvents (oid : Nat) (o : Obj) :
    (presaveEvents o).countP (isPresaveOf oid)
      = if o.presave && o.id == oid then 1 else 0 := by
  unfold presaveEvents
  cases hp : o.presave <;> simp [hp, List.countP_cons, isPresaveOf]

theorem countP_presave_flatMap (oid : Nat) :
    ∀ l : List Obj,
      (l.flatMap presaveEvents).countP (isPresaveOf oid)
        = l.countP (fun x => x.presave && x.id == oid)
  | [] => rfl
  | o :: rest => by
    simp only [List.flatMap_cons, List.countP_append, List.countP_cons,
      countP_presaveEvents, countP_presave_flatMap oid rest]
    omega

theorem countP_presave_scanTrace (oid : Nat) (key_fields : List Field) :
    ∀ (l : List Obj) (seen : List (List String)),
      (scanTrace presaveEvents key_fields l seen).countP (isPresaveOf oid)
        = l.countP (fun x => x.presave && x.id == oid)
          + (filter_objects_list key_fields l seen).countP
              (fun x => x.presave && x.id == oid)
  | [], _seen => rfl
  | o :: rest, seen => by
    simp only [scanTrace, filter_objects_list]
    split
    · simp only [List.countP_append, countP_presaveEvents, List.countP_cons,
        countP_presave_scanTrace oid key_fields rest seen]
      omega
    · simp only [List.countP_append, countP_presaveEvents, List.countP_cons,
        countP_presave_scanTrace oid key_fields rest
          (prep_values key_fields o :: seen)]
      omega

theorem countP_bool_rearrange (l : List Obj) (a b c : Obj → Bool) :
    l.countP (fun x => (a x && b x) && c x)
      = l.countP (fun x => (a x && c x) && b x) := by
  induction l with
  | nil => rfl
  | cons x xs ih =>
    rw [List.countP_cons, List.countP_cons, ih]
    congr 1
    cases a x <;> cases b x <;> cases c x <;> rfl

/-- In a batch whose object ids are pairwise distinct, the only object
that can satisfy a predicate conjoined with `id == o.id` is `o` itself. -/
theorem countP_id_unique (q : Obj → Bool) :
    ∀ (objs : List Obj) (o : Obj), (objs.map Obj.id).Nodup → o ∈ objs →
      objs.countP (fun x => q x && x.id == o.id) = if q o then 1 else 0
  | [], o, _h, ho => absurd ho (List.not_mem_nil o)
  | a :: rest, o, h, ho => by
    simp only [List.map_cons, List.nodup_cons] at h
    rcases List.mem_cons.1 ho with rfl | ho2
    · rw [List.countP_cons]
      have hz : rest.countP (fun x => q x && x.id == o.id) = 0 := by
        rw [List.countP_eq_zero]
        intro x hx hqx
        simp only [Bool.and_eq_true, beq_iff_eq] at hqx
        exact h.1 (hqx.2 ▸ List.mem_map_of_mem Obj.id hx)
      simp [hz]
    · have hne : a.id ≠ o.id := by
        intro he
        exact h.1 (he ▸ List.mem_map_of_mem Obj.id ho2)
      rw [List.countP_cons_of_neg _ _ (by simp [hne])]
      exact countP_id_unique q rest o h.2 ho2

/-! Events emitted by prepare traces are hook invocations only -/

theorem mem_presaveEvents {e : Event} {o : Obj} (h : e ∈ presaveEvents o) :
    ∃ j, e = Event.presaveCall j := by
  unfold presaveEvents at h
  cases hp : o.presave <;> rw [hp] at h <;> simp at h
  exact ⟨o.id, h⟩

theorem mem_presave_flatMap {e : Event} {l : List Obj}
    (h : e ∈ l.flatMap presaveEvents) : ∃ j, e = Event.presaveCall j := by
  rcases List.mem_flatMap.1 h with ⟨o, _, he⟩
  exact mem_presaveEvents he

theorem mem_scanTrace_presave (key_fields : List Field) :
    ∀ (l : List Obj) (seen : List (List String)) (e : Event),
      e ∈ scanTrace presaveEvents key_fields l seen →
        ∃ j, e = Event.presaveCall j
  | [], _seen, e, h => by simp [scanTrace] at h
  | o :: rest, seen, e, h => by
    simp only [scanTrace] at h
    rcases List.mem_append.1 h with h1 | h2
    · exact mem_presaveEvents h1
    · split at h2
      · exact mem_scanTrace_presave key_fields rest seen e h2
      · rcases List.mem_append.1 h2 with h3 | h4
        · exact mem_presaveEvents h3
        · exact mem_scanTrace_presave key_fields rest _ e h4

theorem commitCount_presave_flatMap (l : List Obj) :
    commitCount (l.flatMap presaveEvents) = 0 := by
  rw [commitCount, List.countP_eq_zero]
  intro e he
  rcases mem_presave_flatMap he with ⟨j, rfl⟩
  simp [isCommitEv]

theorem commitCount_scanTrace (key_fields : List Field) (l : List Obj)
    (seen : List (List String)) :
    commitCount (scanTrace presaveEvents key_fields l seen) = 0 := by
  rw [commitCount, List.countP_eq_zero]
  intro e he
  rcases mem_scanTrace_presave key_fields l seen e he with ⟨j, rfl⟩
  simp [isCommitEv]

/-! Facts about `_update_many` runs -/

theorem update_core_ok_of_keys (con : Connection) (m : Model) (objs : List Obj)
    (keys : List String)
    (hk : key_fields_of m (resolved_keys m keys) ≠ []) :
    update_many_core con m objs keys
      = .ok (if objs.isEmpty then []
             else objs.flatMap presaveEvents
                ++ [Event.executeMany (update_sql con m (resolved_keys m keys))
                      (objs.map (prep_values
                        (value_fields_of m (resolved_keys m keys)
                          ++ key_fields_of m (resolved_keys m keys))))]) := by
  unfold update_many_core
  by_cases hobjs : objs.isEmpty
  · simp [hobjs]
  · have hkf : (key_fields_of m (resolved_keys m keys)).isEmpty = false := by
      simpa [List.isEmpty_iff] using hk
    simp [hobjs, hkf]

theorem update_core_presave_count (con : Connection) (m : Model)
    (objs : List Obj) (keys : List String) (u : List Event) (oid : Nat)
    (h : update_many_core con m objs keys = .ok u) :
    u.countP (isPresaveOf oid) = objs.countP (fun x => x.presave && x.id == oid) := by
  unfold update_many_core at h
  split at h
  · cases h
    simp only [List.countP_nil]
    rw [Eq.comm, List.countP_eq_zero]
    intro x hx
    simp_all [List.isEmpty_iff]
  · split at h
    · cases h
    · cases h
      simp [List.countP_append, countP_presave_flatMap, List.countP_cons, isPresaveOf]

theorem update_core_commit_free (con : Connection) (m : Model)
    (objs : List Obj) (keys : List String) (u : List Event)
    (h : update_many_core con m objs keys = .ok u) :
    commitCount u = 0 := by
  unfold update_many_core at h
  split at h
  · cases h; rfl
  · split at h
    · cases h
    · cases h
      have h1 := commitCount_presave_flatMap objs
      unfold commitCount at h1 ⊢
      rw [List.countP_append, h1]
      simp [isCommitEv]

/-! Destructuring a successful upsert run -/

theorem upsert_ok_destruct (con : Connection) (m : Model) (objects : List Obj)
    (keys : List String) (skip_update : Bool) (t : List Event)
    (hok : insert_or_update_many con m objects keys skip_update = .ok t)
    (hobjs : objects ≠ []) :
    key_fields_of m (resolved_keys m keys) ≠ []
    ∧ ∃ u,
        (if skip_update then Except.ok []
         else update_many_core con m
           (update_objects_of (key_fields_of m (resolved_keys m keys)) objects con.fetch)
           (resolved_keys m keys)) = .ok u
        ∧ t = objects.flatMap presaveEvents
            ++ [Event.execute
                  (existence_sql con m (key_fields_of m (resolved_keys m keys))
                    objects.length)
                  ((object_keys_of (key_fields_of m (resolved_keys m keys)) objects).flatMap
                    (fun ok => ok.2))]
            ++ u
            ++ insert_many_core con m
                (filter_objects (key_fields_of m (resolved_keys m keys))
                  (insert_objects_of (key_fields_of m (resolved_keys m keys)) objects
                    con.fetch))
            ++ commitEvents con := by
  unfold insert_or_update_many at hok
  rw [if_neg (by simpa [List.isEmpty_iff] using hobjs)] at hok
  by_cases hkf : (key_fields_of m (resolved_keys m keys)).isEmpty
  · rw [if_pos hkf] at hok
    cases hok
  · rw [if_neg hkf] at hok
    refine ⟨by simpa [List.isEmpty_iff] using hkf, ?_⟩
    cases hE : (if skip_update then Except.ok []
        else update_many_core con m
          (update_objects_of (key_fields_of m (resolved_keys m keys)) objects con.fetch)
          (resolved_keys m keys)) with
    | error e => rw [hE] at hok; cases hok
    | ok u =>
      rw [hE] at hok
      exact ⟨u, rfl, (Except.ok.inj hok).symm⟩

/-- The value fields computed by `_update_many` are exactly the SET-clause
fields the spec prescribes. -/
theorem value_fields_eq_set_fields (m : Model) (keys : List String) :
    value_fields_of m keys = update_set_fields m keys := by
  unfold value_fields_of model_fields update_set_fields
  rw [List.filter_filter]
  exact List.filter_congr (fun f _ => by rw [Bool.and_comm])

/-- The key fields computed by `_update_many` are exactly the WHERE-clause
fields the spec prescribes. -/
theorem key_fields_eq_where_fields (m : Model) (keys : List String) :
    key_fields_of m keys = update_where_fields m keys := rfl

theorem update_sql_eq_spec (con : Connection) (m : Model) (keys : List String) :
    update_sql con m keys = update_sql_spec con m keys := by
  unfold update_sql update_sql_spec
  rw [value_fields_eq_set_fields, key_fields_eq_where_fields]

/-! Claim theorems -/

/-- C1: after `insert_or_update_many` completes successfully on a batch,
the batch is partitioned by the pre-query existence set: a record is an
update-candidate exactly when its prepared key tuple is among the tuples
returned by the existence select, an insert-candidate exactly when it is
not, no record is both, and every record is one of the two. -/
theorem upsert_partition_invariant (con : Connection) (m : Model)
    (objects : List Obj) (keys : List String) (skip_update : Bool)
    (t : List Event) (o : Obj)
    (hok : insert_or_update_many con m objects keys skip_update = Except.ok t)
    (ho : o ∈ objects) :
    (o ∈ update_objects_of (key_fields_of m (resolved_keys m keys)) objects con.fetch
      ↔ prep_values (key_fields_of m (resolved_keys m keys)) o ∈ con.fetch)
    ∧ (o ∈ insert_objects_of (key_fields_of m (resolved_keys m keys)) objects con.fetch
      ↔ prep_values (key_fields_of m (resolved_keys m keys)) o ∉ con.fetch)
    ∧ ¬(o ∈ update_objects_of (key_fields_of m (resolved_keys m keys)) objects con.fetch
        ∧ o ∈ insert_objects_of (key_fields_of m (resolved_keys m keys)) objects con.fetch)
    ∧ (o ∈ update_objects_of (key_fields_of m (resolved_keys m keys)) objects con.fetch
        ∨ o ∈ insert_objects_of (key_fields_of m (resolved_keys m keys)) objects con.fetch)
    := by
  rw [update_objects_eq_filter, insert_objects_eq_filter]
  refine ⟨?_, ?_, ?_, ?_⟩
  · rw [List.mem_filter]; simp [ho]
  · rw [List.mem_filter]; simp [ho]
  · rw [List.mem_filter, List.mem_filter]
    rintro ⟨⟨-, h1⟩, ⟨-, h2⟩⟩
    simp only [decide_eq_true_eq] at h1 h2
    exact h2 h1
  · rw [List.mem_filter, List.mem_filter]
    by_cases hmem : prep_values (key_fields_of m (resolved_keys m keys)) o ∈ con.fetch
    · exact Or.inl ⟨ho, by simpa using hmem⟩
    · exact Or.inr ⟨ho, by simpa using hmem⟩

theorem upsert_partition_invariant_witness :
    (pAnn ∈ update_objects_of (key_fields_of person (resolved_keys person ["email"]))
        [pAnn, pAnn2] conQ.fetch
      ↔ prep_values (key_fields_of person (resolved_keys person ["email"])) pAnn
          ∈ conQ.fetch) :=
  (upsert_partition_invariant conQ person [pAnn, pAnn2] ["email"] false
    (traceOf (insert_or_update_many conQ person [pAnn, pAnn2] ["email"] false))
    pAnn rfl (List.mem_cons_self _ _)).1

/-- C2: for a non-empty key field list, the deduplicator emits exactly
one record per distinct prepared key tuple (the emitted key tuples are
nodup and cover exactly the input's key tuples), and the emitted record
for each key tuple is the one appearing latest in the original batch
(it is the first match in the reversed batch); in particular, upserting
the spec's two-record `Person` batch into an empty table inserts exactly
the one row `(a@x, Ann2)`. -/
theorem dedup_latest_wins (key_fields : List Field) (objects : List Obj)
    (hkf : key_fields ≠ []) :
    ((dedup_run key_fields objects).map (prep_values key_fields)).Nodup
    ∧ (∀ k, k ∈ (dedup_run key_fields objects).map (prep_values key_fields)
          ↔ k ∈ objects.map (prep_values key_fields))
    ∧ (∀ o ∈ dedup_run key_fields objects,
        objects.reverse.find?
          (fun x => decide (prep_values key_fields x = prep_values key_fields o))
          = some o)
    ∧ executedRows
        (traceOf (insert_or_update_many conQ person [pAnn, pAnn2] ["email"] false))
        (insert_many_sql conQ person) = [["a@x", "Ann2"]] := by
  refine ⟨filter_objects_list_keys_nodup key_fields objects.reverse [], ?_, ?_, ?_⟩
  · intro k
    unfold dedup_run
    rw [filter_objects_list_mem_keys]
    simp
  · intro o hoo
    exact filter_objects_list_find key_fields objects.reverse [] o hoo
  · rfl

theorem dedup_latest_wins_witness :
    ((dedup_run [personEmailF] [pAnn, pAnn2]).map (prep_values [personEmailF])).Nodup :=
  (dedup_latest_wins [personEmailF] [pAnn, pAnn2] (by simp)).1

/-- C3: for a non-empty batch and a key set resolving to at least one
field, `update_many` executes one update statement whose SET clause lists
exactly the non-auto-generated fields outside the key set in schema
order, whose WHERE clause lists exactly the key-set fields in schema
order, and whose per-record parameter tuples are the prepared values of
the SET fields followed by the WHERE fields. -/
theorem update_statement_shape (con : Connection) (m : Model)
    (objects : List Obj) (keys : List String)
    (hobjs : objects ≠ [])
    (hkf : update_where_fields m (resolved_keys m keys) ≠ []) :
    update_many con m objects keys
      = .ok (objects.flatMap presaveEvents
          ++ [Event.executeMany (update_sql_spec con m (resolved_keys m keys))
                (objects.map (prep_values
                  (update_set_fields m (resolved_keys m keys)
                    ++ update_where_fields m (resolved_keys m keys))))]
          ++ commitEvents con) := by
  unfold update_many
  rw [update_core_ok_of_keys con m objects keys
    (by rw [key_fields_eq_where_fields]; exact hkf)]
  rw [if_neg (by simpa [List.isEmpty_iff] using hobjs)]
  simp only [Bind.bind, Except.bind]
  rw [update_sql_eq_spec, value_fields_eq_set_fields, key_fields_eq_where_fields,
    List.append_assoc]

theorem update_statement_shape_witness :
    update_many conQ person [pAnn] ["email"]
      = .ok ([pAnn].flatMap presaveEvents
          ++ [Event.executeMany (update_sql_spec conQ person (resolved_keys person ["email"]))
                ([pAnn].map (prep_values
                  (update_set_fields person (resolved_keys person ["email"])
                    ++ update_where_fields person (resolved_keys person ["email"]))))]
          ++ commitEvents conQ) :=
  update_statement_shape conQ person [pAnn] ["email"] (by simp) (by decide)

/-- C4 counterexample: `insert_many` on an empty batch still issues a
commit round-trip (`commit_unless_managed` is called unconditionally),
so the claim that all three operations perform zero store round-trips,
commits included, on an empty batch is false. -/
theorem empty_batch_commit_counterexample :
    ¬ roundTrips (insert_many conQ person []) = 0 := by decide

/-- C4 amended: on an empty batch no statement is executed and no query
is issued by any of the three operations, and `insert_or_update_many`
returns before any store interaction; but `insert_many` and
`update_many` still call `commit_unless_managed`, so they issue a commit
round-trip whenever the store is not inside an explicit transaction. -/
theorem empty_batch_noop_amended (con : Connection) (m : Model)
    (keys : List String) (skip_update : Bool) :
    insert_or_update_many con m [] keys skip_update = .ok []
    ∧ insert_many con m [] = commitEvents con
    ∧ update_many con m [] keys = .ok (commitEvents con)
    ∧ statementCount (commitEvents con) = 0 := by
  refine ⟨rfl, rfl, rfl, ?_⟩
  cases h : con.managed <;> simp [commitEvents, h, statementCount, isStatementEv]

/-- C5: on a non-empty batch, `update_many` and `insert_or_update_many`
fail (the source's `assert key_fields`, the spec's `ConfigurationError`)
when the resolved key set matches zero fields of the schema; the error
result carries no events, so no statement was sent to the store. -/
theorem empty_keyset_error (con : Connection) (m : Model) (objects : List Obj)
    (keys : List String) (skip_update : Bool)
    (hobjs : objects ≠ [])
    (hkf : key_fields_of m (resolved_keys m keys) = []) :
    update_many con m objects keys = .error "Empty key fields"
    ∧ insert_or_update_many con m objects keys skip_update
        = .error "Empty key fields" := by
  have hne : ¬ objects.isEmpty = true := by simpa [List.isEmpty_iff] using hobjs
  have hkfe : (key_fields_of m (resolved_keys m keys)).isEmpty = true := by
    simp [hkf]
  constructor
  · unfold update_many update_many_core
    rw [if_neg hne, if_pos hkfe]
    rfl
  · unfold insert_or_update_many
    rw [if_neg hne, if_pos hkfe]

theorem empty_keyset_error_witness :
    update_many conQ person [pAnn] ["nosuch"] = .error "Empty key fields"
    ∧ insert_or_update_many conQ person [pAnn] ["nosuch"] false
        = .error "Empty key fields" :=
  empty_keyset_error conQ person [pAnn] ["nosuch"] false (by simp) (by decide)

/-- C6 counterexample: with a table named by the reserved word `order`
and double-quote identifier quoting, none of the three generated
statements equals its fully-quoted form — the table name is interpolated
without quoting — so the claim that every identifier in the generated
statements is quoted is false. -/
theorem identifier_quoting_counterexample :
    insert_many_sql conQ orderModel ≠ insert_sql_allQuoted conQ orderModel
    ∧ update_sql conQ orderModel ["name"] ≠ update_sql_allQuoted conQ orderModel ["name"]
    ∧ existence_sql conQ orderModel (key_fields_of orderModel ["name"]) 1
        ≠ existence_sql_allQuoted conQ orderModel (key_fields_of orderModel ["name"]) 1 := by
  refine ⟨?_, ?_, ?_⟩ <;> decide

/-- C6 amended: every column identifier in the insert, update and
existence-select statements is quoted with the store's convention, but
the table name is interpolated raw: each statement coincides with its
fully-quoted form exactly when quoting the table name is a no-op. -/
theorem identifier_quoting_amended (con : Connection) (m : Model)
    (keys : List String) (key_fields : List Field) (n : Nat)
    (htab : con.quote m.db_table = m.db_table) :
    insert_many_sql con m = insert_sql_allQuoted con m
    ∧ update_sql con m keys = update_sql_allQuoted con m keys
    ∧ existence_sql con m key_fields n = existence_sql_allQuoted con m key_fields n := by
  refine ⟨?_, ?_, ?_⟩
  · unfold insert_many_sql insert_sql_allQuoted
    rw [htab]
  · unfold update_sql update_sql_allQuoted
    rw [htab]
  · unfold existence_sql existence_sql_allQuoted
    rw [htab]

theorem identifier_quoting_amended_witness :
    insert_many_sql conId person = insert_sql_allQuoted conId person :=
  (identifier_quoting_amended conId person ["email"] [] 0 rfl).1

/-- C7 counterexample: a successful `insert_or_update_many` over a
non-empty batch outside an explicit transaction issues a single commit,
not one commit per sub-operation, so the two-commit claim is false. -/
theorem upsert_two_commits_counterexample :
    ¬ commitCount
        (traceOf (insert_or_update_many conQ person [pAnn] ["email"] false)) = 2 := by
  decide

/-- C7 amended: a successful `insert_or_update_many` over a non-empty
batch outside an explicit transaction issues exactly one commit, and it
is the last event of the run — both sub-operations share the single
commit issued after the insert phase. -/
theorem upsert_single_commit_amended (con : Connection) (m : Model)
    (objects : List Obj) (keys : List String) (skip_update : Bool)
    (t : List Event)
    (hobjs : objects ≠ []) (hman : con.managed = false)
    (hok : insert_or_update_many con m objects keys skip_update = Except.ok t) :
    commitCount t = 1 ∧ t.getLast? = some Event.commit := by
  obtain ⟨hkf, u, hu, ht⟩ :=
    upsert_ok_destruct con m objects keys skip_update t hok hobjs
  have hcu : commitCount u = 0 := by
    cases skip_update with
    | true =>
      simp only [if_pos rfl] at hu
      cases hu
      rfl
    | false =>
      simp only [Bool.false_eq_true, if_false] at hu
      exact update_core_commit_free _ _ _ _ u hu
  subst ht
  constructor
  · unfold commitCount at hcu ⊢
    rw [insert_phase_trace]
    simp only [List.countP_append, hcu]
    have h1 := commitCount_presave_flatMap objects
    have h2 := commitCount_scanTrace (key_fields_of m (resolved_keys m keys))
      (insert_objects_of (key_fields_of m (resolved_keys m keys)) objects con.fetch).reverse []
    unfold commitCount at h1 h2
    rw [h1, h2]
    simp [isCommitEv, commitEvents, hman]
  · have hce : commitEvents con = [Event.commit] := by simp [commitEvents, hman]
    rw [hce]
    exact List.getLast?_concat _

theorem upsert_single_commit_amended_witness :
    commitCount (traceOf (insert_or_update_many conQ person [pAnn] ["email"] false)) = 1
    ∧ (traceOf (insert_or_update_many conQ person [pAnn] ["email"] false)).getLast?
        = some Event.commit :=
  upsert_single_commit_amended conQ person [pAnn] ["email"] false
    (traceOf (insert_or_update_many conQ person [pAnn] ["email"] false))
    (by simp) rfl rfl

/-- C8: during one successful `insert_or_update_many` run with
`skip_update = false`, a record exposing the `presave` hook has the hook
invoked more than once — at least twice (existence-query preparation plus
the update, dedup or insert preparation) and at most three times (an
insert-candidate surviving dedup is prepared for the existence query, the
dedup scan and the insert). -/
theorem presave_called_multiple_times (con : Connection) (m : Model)
    (objects : List Obj) (keys : List String) (t : List Event) (o : Obj)
    (hids : (objects.map Obj.id).Nodup) (ho : o ∈ objects) (hp : o.presave = true)
    (hok : insert_or_update_many con m objects keys false = Except.ok t) :
    2 ≤ presaveCount t o.id ∧ presaveCount t o.id ≤ 3 := by
  obtain ⟨hkf, u, hu, ht⟩ :=
    upsert_ok_destruct con m objects keys false t hok (List.ne_nil_of_mem ho)
  simp only [Bool.false_eq_true, if_false] at hu
  subst ht
  have h1 : (objects.flatMap presaveEvents).countP (isPresaveOf o.id) = 1 := by
    rw [countP_presave_flatMap]
    simpa [hp] using countP_id_unique Obj.presave objects o hids ho
  have hfilter : ∀ c : Obj → Bool,
      (objects.filter c).countP (fun x => x.presave && x.id == o.id)
        = if c o then 1 else 0 := by
    intro c
    rw [List.countP_filter, countP_bool_rearrange,
      countP_id_unique (fun x => x.presave && c x) objects o hids ho]
    simp [hp]
  have h2 : u.countP (isPresaveOf o.id)
      = if decide (prep_values (key_fields_of m (resolved_keys m keys)) o ∈ con.fetch)
        then 1 else 0 := by
    rw [update_core_presave_count con m _ _ u o.id hu, update_objects_eq_filter]
    exact hfilter _
  have hX : (insert_objects_of (key_fields_of m (resolved_keys m keys)) objects
        con.fetch).reverse.countP (fun x => x.presave && x.id == o.id)
      = if decide (prep_values (key_fields_of m (resolved_keys m keys)) o ∉ con.fetch)
        then 1 else 0 := by
    rw [List.countP_reverse, insert_objects_eq_filter]
    exact hfilter _
  have hY : (filter_objects_list (key_fields_of m (resolved_keys m keys))
        (insert_objects_of (key_fields_of m (resolved_keys m keys)) objects
          con.fetch).reverse []).countP (fun x => x.presave && x.id == o.id)
      ≤ (insert_objects_of (key_fields_of m (resolved_keys m keys)) objects
          con.fetch).reverse.countP (fun x => x.presave && x.id == o.id) :=
    (filter_objects_list_sublist _ _ []).countP_le _
  have hins : (insert_many_core con m
        (filter_objects (key_fields_of m (resolved_keys m keys))
          (insert_objects_of (key_fields_of m (resolved_keys m keys)) objects
            con.fetch))).countP (isPresaveOf o.id)
      = (insert_objects_of (key_fields_of m (resolved_keys m keys)) objects
          con.fetch).reverse.countP (fun x => x.presave && x.id == o.id)
        + (filter_objects_list (key_fields_of m (resolved_keys m keys))
            (insert_objects_of (key_fields_of m (resolved_keys m keys)) objects
              con.fetch).reverse []).countP (fun x => x.presave && x.id == o.id) := by
    rw [insert_phase_trace, List.countP_append, countP_presave_scanTrace]
    simp [isPresaveOf]
  have hC : (commitEvents con).countP (isPresaveOf o.id) = 0 := by
    cases hm : con.managed <;> simp [commitEvents, hm, isPresaveOf]
  have hEx : List.countP (isPresaveOf o.id)
      [Event.execute
        (existence_sql con m (key_fields_of m (resolved_keys m keys)) objects.length)
        ((object_keys_of (key_fields_of m (resolved_keys m keys)) objects).flatMap
          (fun ok => ok.2))] = 0 := by
    simp [isPresaveOf]
  unfold presaveCount
  simp only [List.countP_append]
  rw [h1, hEx, hins, hC]
  rw [hX] at hY
  by_cases hmem : prep_values (key_fields_of m (resolved_keys m keys)) o ∈ con.fetch
  · rw [h2, if_pos (by simpa using hmem), hX, if_neg (by simpa using hmem)]
    rw [if_neg (by simpa using hmem)] at hY
    omega
  · rw [h2, if_neg (by simpa using hmem), hX, if_pos (by simpa using hmem)]
    rw [if_pos (by simpa using hmem)] at hY
    omega

theorem presave_called_multiple_times_witness :
    2 ≤ presaveCount
        (traceOf (insert_or_update_many conQ person [qAnn] ["email"] false)) 5
    ∧ presaveCount
        (traceOf (insert_or_update_many conQ person [qAnn] ["email"] false)) 5 ≤ 3 :=
  presave_called_multiple_times conQ person [qAnn] ["email"]
    (traceOf (insert_or_update_many conQ person [qAnn] ["email"] false)) qAnn
    (by decide) (List.mem_cons_self _ _) rfl rfl

/-- C9: when every record of a successful non-empty upsert batch already
exists (its key tuple is among the fetched tuples), the insert phase is
not skipped: the dedup generator is truthy even though it yields nothing,
so `_insert_many` still executes the insert statement with an empty
parameter list. -/
theorem insert_phase_not_skipped (con : Connection) (m : Model)
    (objects : List Obj) (keys : List String) (skip_update : Bool)
    (t : List Event)
    (hobjs : objects ≠ [])
    (hall : ∀ o ∈ objects,
      prep_values (key_fields_of m (resolved_keys m keys)) o ∈ con.fetch)
    (hok : insert_or_update_many con m objects keys skip_update = Except.ok t) :
    Event.executeMany (insert_many_sql con m) [] ∈ t := by
  obtain ⟨hkf, u, hu, ht⟩ :=
    upsert_ok_destruct con m objects keys skip_update t hok hobjs
  have hins : insert_objects_of (key_fields_of m (resolved_keys m keys)) objects
      con.fetch = [] := by
    rw [insert_objects_eq_filter, List.filter_eq_nil_iff]
    intro a ha
    simp [hall a ha]
  subst ht
  rw [hins, insert_phase_trace]
  simp [scanTrace, dedup_run, filter_objects_list]

theorem insert_phase_not_skipped_witness :
    Event.executeMany (insert_many_sql conHit person) []
      ∈ traceOf (insert_or_update_many conHit person [pAnn] ["email"] false) :=
  insert_phase_not_skipped conHit person [pAnn] ["email"] false
    (traceOf (insert_or_update_many conHit person [pAnn] ["email"] false))
    (by simp)
    (by
      intro o ho
      rcases List.mem_cons.1 ho with rfl | hcontra
      · decide
      · cases hcontra)
    rfl

/-- C10: the dedup generator yields the surviving insert-candidates as a
subsequence of the reversed batch (latest record first), and the insert
phase of a successful upsert executes exactly those records' prepared
values, in that reversed order, as its parameter tuples. -/
theorem insert_params_reverse_order (con : Connection) (m : Model)
    (objects : List Obj) (keys : List String) (skip_update : Bool)
    (t : List Event)
    (hobjs : objects ≠ [])
    (hok : insert_or_update_many con m objects keys skip_update = Except.ok t) :
    (dedup_run (key_fields_of m (resolved_keys m keys))
        (insert_objects_of (key_fields_of m (resolved_keys m keys)) objects
          con.fetch)).Sublist
      (insert_objects_of (key_fields_of m (resolved_keys m keys)) objects
        con.fetch).reverse
    ∧ Event.executeMany (insert_many_sql con m)
        ((dedup_run (key_fields_of m (resolved_keys m keys))
            (insert_objects_of (key_fields_of m (resolved_keys m keys)) objects
              con.fetch)).map (prep_values (model_fields m))) ∈ t := by
  obtain ⟨hkf, u, hu, ht⟩ :=
    upsert_ok_destruct con m objects keys skip_update t hok hobjs
  refine ⟨filter_objects_list_sublist _ _ [], ?_⟩
  subst ht
  rw [insert_phase_trace]
  simp

theorem insert_params_reverse_order_witness :
    (dedup_run (key_fields_of person (resolved_keys person ["email"]))
        (insert_objects_of (key_fields_of person (resolved_keys person ["email"]))
          [pAnn, pAnn2] conQ.fetch)).Sublist
      (insert_objects_of (key_fields_of person (resolved_keys person ["email"]))
        [pAnn, pAnn2] conQ.fetch).reverse :=
  (insert_params_reverse_order conQ person [pAnn, pAnn2] ["email"] false
    (traceOf (insert_or_update_many conQ person [pAnn, pAnn2] ["email"] false))
    (by simp) rfl).1

end DjangoBulk
